import Mathlib

/-!
Verification of the AI-assisted spreadsheet editor (demo-quoting).

Shallow embedding of the model-fallback invocation layer
(`generateContentWithFallback` in `app/utils/geminiApi.ts`), the
extraction and quoting adapters (`aiExtractionUtils.ts`,
`aiQuotingUtils.ts`), the grid reconciliation engine in
`app/routes/home.tsx` (`removeDataForFileId`, `runExtraction`,
`handleAutoQuote`), the conversational merge in `GeminiChat`
(`handleSendMessage`), and the undo/redo history manager.

Conventions: JavaScript strings are modelled as `String` or `List Char`;
`Record<string, T>` maps keyed by row/column indices are modelled as
functions into `Option`; a JavaScript computation that can throw is
modelled with `Option` (`none` = an exception was raised); the platform
primitives `JSON.parse` and `new URL(...)` hostname extraction are
external to the repository and are taken as parameters.
-/

/-- A parsed JSON value (the result of the platform `JSON.parse`).
`num` carries an integer: the adapters under verification only ever
inspect integral numbers (`rowId`, row indices). -/
inductive Json where
  | obj (fields : List (String × Json))
  | arr (elems : List Json)
  | str (s : String)
  | num (n : Int)
  | bool (b : Bool)
  | null

/-- Property access `v.k` on a parsed JSON value that did not throw:
objects yield their field (`JSON.parse` keeps the last binding of a
duplicated key), and access on a non-object primitive other than `null`
yields `undefined` (`none` here).  Access on `null` throws a TypeError
in JavaScript; callers (`extractDataParse`) model that throw explicitly
before using this function. -/
def jsonLookup : Json → String → Option Json
  | Json.obj fields, k => (fields.reverse.find? (fun p => p.1 == k)).map (fun p => p.2)
  | _, _ => none

/-- Outcome of one whole `generateContentWithFallback` call as seen by an
adapter: either the text of the first successful attempt together with
the model that produced it, or the propagated exhaustion/transport
exception (`err`). -/
inductive GatewayResult where
  | ok (text : List Char) (finalModel : String)
  | err

/-- The tagged citation union of `aiExtractionUtils.ts`. -/
inductive ExtractionCitation where
  | document (page : String) (quote : String)
  | spreadsheet (location : String) (reasoning : String)
  | api (endpoint : String) (reasoning : String) (url : String)
deriving DecidableEq

/-- `RowSourceInfo` from `app/routes/home.tsx`. -/
structure RowSourceInfo where
  fileId : String
  fileName : String
  citation : ExtractionCitation
deriving DecidableEq

/-- One element of the `rows` list returned by the citation-aware
extraction adapter: `data` is the cell list, `citation` the evidence. -/
structure ExtractedRow where
  data : List String
  citation : ExtractionCitation
deriving DecidableEq

instance : Inhabited ExtractedRow := ⟨⟨[], ExtractionCitation.api "" "" ""⟩⟩

/-! ## Model invocation gateway (`generateContentWithFallback`) -/

/-- JavaScript `Array.prototype.indexOf`: index of the first occurrence,
`-1` when absent. -/
def jsIndexOf (l : List String) (x : String) : Int :=
  match l.findIdx? (fun m => m == x) with
  | some i => (i : Int)
  | none => -1

/-- `getNextModel` from `generateContentWithFallback`: the first model
strictly after `current`'s first occurrence (the whole list when
`current` is absent, since `indexOf` yields `-1`) that is not excluded. -/
def getNextModel (availableModels : List String) (current : String)
    (excluded : List String) : Option String :=
  let idx := jsIndexOf availableModels current
  (availableModels.drop (idx + 1).toNat).find? (fun m => !(excluded.contains m))

/-- The sequence of models attempted by `attempt` inside
`generateContentWithFallback` in the scenario where every attempted
model's `generateContent` call throws.  After the last listed attempt
`getNextModel` yields no candidate and the call throws the exhaustion
error (`"All available models failed."` in the vite-project version,
`"AI Request failed. Check your API Key or connection."` in the app
version).  The recursion mirrors the source: on failure the current
model joins the exclusion list and `getNextModel` picks the next
candidate. -/
def fallbackAttempts (avail : List String) (current : String)
    (failedList : List String) : List String :=
  match h : getNextModel avail current (failedList ++ [current]) with
  | some next => current :: fallbackAttempts avail next (failedList ++ [current])
  | none => [current]
termination_by (avail.filter (fun m => !((failedList ++ [current]).contains m))).length
decreasing_by
  have hcd : ∀ (l : List String) (a : String), l.contains a = decide (a ∈ l) := by
    intro l a
    cases hc : l.contains a with
    | true => simp [List.elem_iff.mp hc]
    | false =>
      have hnm : a ∉ l := fun hm => by
        have hc2 : l.elem a = false := hc
        rw [List.elem_iff.mpr hm] at hc2
        cases hc2
      simp [hnm]
  have hlt : ∀ (l exc : List String) (x : String), x ∈ l → x ∉ exc →
      (l.filter (fun m => !((exc ++ [x]).contains m))).length <
        (l.filter (fun m => !(exc.contains m))).length := by
    intro l exc x hx hnx
    have hpred : (fun m => !((exc ++ [x]).contains m))
        = (fun m => (!(m == x)) && (!(exc.contains m))) := by
      funext m
      rw [hcd, hcd]
      by_cases h1 : m ∈ exc <;> by_cases h2 : m = x <;>
        simp [h1, h2, List.mem_append]
    rw [hpred, ← List.filter_filter]
    apply List.length_filter_lt_length_iff_exists.mpr
    refine ⟨x, ?_, ?_⟩
    · rw [List.mem_filter]
      refine ⟨hx, ?_⟩
      rw [hcd]
      simp [hnx]
    · simp
  have hmem : next ∈ avail ∧ next ∉ failedList ++ [current] := by
    unfold getNextModel at h
    constructor
    · exact (List.drop_sublist _ _).mem (List.mem_of_find?_eq_some h)
    · have hp := List.find?_some h
      rw [hcd] at hp
      simpa using hp
  exact hlt avail (failedList ++ [current]) next hmem.1 hmem.2

/-! ## Citation-aware extraction adapter (`extractDataFromReference`) -/

/-- `String.prototype.indexOf(pat)`: start index of the first occurrence
of `pat`, or `none` (JavaScript `-1`). -/
def firstOccur (pat : List Char) (t : List Char) : Option Nat :=
  (List.range (t.length + 1)).find? (fun i => pat.isPrefixOf (t.drop i))

/-- `String.prototype.lastIndexOf(pat)`: start index of the last
occurrence of `pat`, or `none` (JavaScript `-1`). -/
def lastOccur (pat : List Char) (t : List Char) : Option Nat :=
  ((List.range (t.length + 1)).filter (fun i => pat.isPrefixOf (t.drop i))).getLast?

/-- JavaScript `String.prototype.substring(a, b)`: swaps its arguments
when `a > b`, then takes the characters in `[lo, hi)`. -/
def jsSubstring (t : List Char) (a b : Nat) : List Char :=
  ((t.drop (min a b)).take (max a b - min a b))

/-- The bracket-extracted substring `responseText.substring(startIndex,
endIndex + 1)` of `extractDataFromReference`, given the positions of the
first `\x7b` and the last `\x7d`. -/
def extractClean (text : List Char) (i j : Nat) : List Char :=
  jsSubstring text i (j + 1)

/-- Return value of the citation-aware extraction adapter on the happy
path: the raw elements of the parsed `rows` array (the source performs
no per-row validation) plus the model that answered. -/
structure ExtractResult where
  rows : List Json
  finalModel : String

/-- The parsing stage of `extractDataFromReference`
(`aiExtractionUtils.ts`, vite-project version), as a function of the
gateway outcome and of the platform `JSON.parse` (the `parse`
parameter, `none` = `JSON.parse` threw).  `none` models the adapter
returning `null`; `some` with empty `rows` models the explicit
"zero rows" result.  When the extracted substring parses to JSON
`null`, the source's `parsedObj.rows` access throws a TypeError that
the inner `catch` turns into `null` — hence the dedicated
`some Json.null => none` branch. -/
def extractDataParse (parse : List Char → Option Json) (g : GatewayResult) :
    Option ExtractResult :=
  match g with
  | GatewayResult.err => none
  | GatewayResult.ok text finalModel =>
    match firstOccur ['\x7b'] text, lastOccur ['\x7d'] text with
    | some i, some j =>
      match parse (extractClean text i j) with
      | none => none
      | some Json.null => none
      | some v =>
        match jsonLookup v "rows" with
        | some (Json.arr rs) => some ⟨rs, finalModel⟩
        | _ => some ⟨[], finalModel⟩
    | _, _ => some ⟨[], finalModel⟩

/-! ## Quoting adapter (`quoteProducts`) -/

/-- One element of `itemsToQuote` in `quoteProducts`: the input row plus
its 1-based `rowId`. -/
structure QuoteItem where
  rowId : Nat
  data : List String
deriving DecidableEq

/-- `itemsToQuote`: `rows.map((row, index) => ({rowId: index + 1, data:
row}))` — the payload embedded into the quoting prompt. -/
def itemsToQuote (rows : List (List String)) : List QuoteItem :=
  rows.enum.map (fun p => ⟨p.1 + 1, p.2⟩)

/-- Whole-match of the fenced-block regular expression
(three backticks, then `json`, lazily up to the next three backticks)
against the response text: the fence opener's first occurrence through
the first closing triple backtick after it. -/
def fenceMatch (t : List Char) : Option (List Char) :=
  match firstOccur ("```json".toList) t with
  | none => none
  | some i =>
    match firstOccur ("```".toList) (t.drop (i + 7)) with
    | none => none
    | some k => some ((t.drop i).take (7 + k + 3))

/-- Whole-match of the greedy bracketed-array regular expression: the
first `[` through the last `]`, when the latter comes after the
former. -/
def bracketMatch (t : List Char) : Option (List Char) :=
  match firstOccur ['['] t, lastOccur [']'] t with
  | some i, some j => if i < j then some ((t.drop i).take (j + 1 - i)) else none
  | _, _ => none

/-- `jsonMatch[0]` of `quoteProducts`: the fenced block when present,
otherwise the greedy bracketed array. -/
def quoteJsonMatch (t : List Char) : Option (List Char) :=
  match fenceMatch t with
  | some m => some m
  | none => bracketMatch t

/-- Recursion core of `stripFences`; the fuel argument only bounds the
recursion depth (each step consumes at least one character, so
`l.length` fuel is always enough) and lets the definition reduce
structurally. -/
def stripFencesAux : Nat → List Char → List Char
  | 0, l => l
  | _ + 1, [] => []
  | fuel + 1, c :: rest =>
    if ("```json".toList).isPrefixOf (c :: rest) then
      stripFencesAux fuel ((c :: rest).drop 7)
    else if ("```".toList).isPrefixOf (c :: rest) then
      stripFencesAux fuel ((c :: rest).drop 3)
    else
      c :: stripFencesAux fuel rest

/-- The global replacement `.replace(three-backticks-json or
three-backticks, "")` of `quoteProducts`: scan left to right, removing
the longer alternative first, as the regular expression alternation
does. -/
def stripFences (l : List Char) : List Char :=
  stripFencesAux l.length l

/-- ASCII whitespace as far as the texts at hand are concerned (model
of the character class matched by `String.prototype.trim`). -/
def isJsWhitespace (c : Char) : Bool :=
  c == ' ' || c == '\t' || c == '\n' || c == '\r'

/-- `String.prototype.trim`. -/
def jsTrim (t : List Char) : List Char :=
  ((t.dropWhile isJsWhitespace).reverse.dropWhile isJsWhitespace).reverse

/-- The parsing stage of `quoteProducts` (`aiQuotingUtils.ts`), as a
function of the gateway outcome and the platform `JSON.parse`.  A
successful return is the parsed array exactly as produced — the source
performs no validation of entry count or `rowId` values. -/
def quoteProductsParse (parse : List Char → Option Json) (g : GatewayResult) :
    Option (List Json) :=
  match g with
  | GatewayResult.err => none
  | GatewayResult.ok text _ =>
    match quoteJsonMatch text with
    | none => none
    | some m =>
      match parse (jsTrim (stripFences m)) with
      | some (Json.arr l) => some l
      | some _ => none
      | none => none

/-! ## Grid reconciliation engine (`app/routes/home.tsx`) -/

/-- The `(fileData, editMetadata, rowSources)` triple owned by the Home
component: the grid (row 0 = header), the per-cell provenance map
(JavaScript keys `r-c`), and the per-row source-citation map. -/
structure GridState where
  data : List (List String)
  metadata : Nat → Nat → Option String
  sources : Nat → Option RowSourceInfo

/-- The provenance tag `extraction-<id>` written on extracted cells. -/
def extractionTag (id : String) : String :=
  "extraction-" ++ id

/-- The per-row test of `removeDataForFileId`: a row belongs to
reference file `id` when some cell (within the row's length) carries the
`extraction-<id>` tag, or when the row's source entry names `id`. -/
def rowFromFile (id : String) (st : GridState) (r : Nat) : Bool :=
  ((List.range (st.data.getD r []).length).any
      (fun c => st.metadata r c == some (extractionTag id)))
  || (match st.sources r with
      | some info => info.fileId == id
      | none => false)

/-- `rowsKeepIndices` of `removeDataForFileId`: the header row 0 is
always kept; data rows are kept when they are not attributable to
`id`. -/
def keepIndices (id : String) (st : GridState) : List Nat :=
  0 :: (((List.range st.data.length).drop 1).filter (fun r => !(rowFromFile id st r)))

/-- `removeDataForFileId`: drop the rows attributable to `id`, renumber
the survivors, and shift their metadata (cells within the old row's
length, skipping falsy values, per the `if (oldMeta)` guard) and source
entries down to the new indices. -/
def removeDataForFileId (id : String) (st : GridState) : GridState :=
  let keep := keepIndices id st
  { data := keep.map (fun idx => st.data.getD idx [])
    metadata := fun r c =>
      match keep.get? r with
      | some oldIdx =>
        if c < (st.data.getD oldIdx []).length then
          match st.metadata oldIdx c with
          | some s => if s = "" then none else some s
          | none => none
        else none
      | none => none
    sources := fun r =>
      match keep.get? r with
      | some oldIdx => st.sources oldIdx
      | none => none }

/-- The merge step of `runExtraction` on a successful extraction: append
the new rows after the cleaned grid, tag every cell of each new row
`extraction-<id>`, and record each new row's citation. -/
def mergeExtraction (id fname : String) (rows : List ExtractedRow)
    (cl : GridState) : GridState :=
  let startRow := cl.data.length
  { data := cl.data ++ rows.map (fun row => row.data)
    metadata := fun r c =>
      if startRow ≤ r ∧ r < startRow + rows.length ∧
          c < ((rows.getD (r - startRow) default).data).length then
        some (extractionTag id)
      else cl.metadata r c
    sources := fun r =>
      if startRow ≤ r ∧ r < startRow + rows.length then
        some { fileId := id, fileName := fname
               citation := (rows.getD (r - startRow) default).citation }
      else cl.sources r }

/-- The clean-then-append pipeline of `runExtraction` for a successful
extraction result: `removeDataForFileId` followed by the merge. -/
def extractionMerge (id fname : String) (rows : List ExtractedRow)
    (st : GridState) : GridState :=
  mergeExtraction id fname rows (removeDataForFileId id st)

/-- The per-source extraction error map `extractionErrors`. -/
def ErrMap : Type := String → Option String

/-- The error message recorded by `runExtraction` on failure. -/
def extractionErrorMsg (fname : String) : String :=
  "Could not extract valid tabular data from " ++ fname ++ "."

/-- `runExtraction`: guard against an empty grid, drop any previous
error for the file, clean the previous contribution of the file, then
either merge a usable result (`result` non-null with at least one row)
or commit the cleaned state and record a per-source error.  The result
is what the caller (`handleAddExtraFile` / `handleManualExtract`)
commits into React state; `none` models the `return null` of the empty
grid guard, in which case nothing is committed. -/
def runExtraction (id fname : String) (result : Option (List ExtractedRow))
    (st : GridState) (errors : ErrMap) : Option (GridState × ErrMap) :=
  if st.data.length = 0 then none
  else
    let errors1 : ErrMap := fun k => if k = id then none else errors k
    let cl := removeDataForFileId id st
    match result with
    | some rows =>
      if 0 < rows.length then
        some (mergeExtraction id fname rows cl, errors1)
      else
        some (cl, fun k => if k = id then some (extractionErrorMsg fname) else errors1 k)
    | none =>
      some (cl, fun k => if k = id then some (extractionErrorMsg fname) else errors1 k)

/-! ## Batch quoting merge (`handleAutoQuote`) -/

/-- A parsed entry of the quoting response as consumed by
`handleAutoQuote` (the `QuotedRow` type of `aiQuotingUtils.ts`); the
`rowId` is whatever integer the model produced. -/
structure QuotedRow where
  rowId : Int
  totalNetPrice : String
  netPricePerUnit : String
  estimatedDelivery : String
  packQuantity : String
  sourceUrl : String
  reasoning : String
deriving DecidableEq

/-- JavaScript element write `row[i] = v` on a dense array: in-bounds
writes replace, out-of-bounds writes extend (holes modelled as `""`). -/
def jsSet (l : List String) (i : Nat) (v : String) : List String :=
  if i < l.length then l.set i v
  else l ++ List.replicate (i - l.length) "" ++ [v]

/-- JavaScript element read `l[i]` with an `Int` index: negative indices
read a plain property, which is absent on a dense array. -/
def jsIndex (l : List (List String)) (i : Int) : Option (List String) :=
  if 0 ≤ i then l.get? i.toNat else none

/-- The three cell writes of `handleAutoQuote` into the row targeted by
a quote (`Net Price`, `Price/Unit`, `Est. Delivery` at columns `cn`,
`cu`, `cd`). -/
def applyQuoteRow (cn cu cd : Nat) (q : QuotedRow) (row : List String) :
    List String :=
  jsSet (jsSet (jsSet row cn q.totalNetPrice) cu q.netPricePerUnit) cd
    q.estimatedDelivery

/-- The source-citation record written by `handleAutoQuote` for a quoted
row; `domainOf` is the platform URL-hostname extraction used by
`getDomain`. -/
def quoteCitation (domainOf : String → String) (q : QuotedRow) : RowSourceInfo :=
  { fileId := "conrad-quoting", fileName := "AI Quoting"
    citation := ExtractionCitation.api (domainOf q.sourceUrl) q.reasoning q.sourceUrl }

/-- One iteration of the `quotes.forEach` merge loop of
`handleAutoQuote`: entries whose `rowId` is at least the grid length are
skipped; otherwise the row at `rowId` is read (`none` = the JavaScript
spread of `undefined` threw, aborting the whole merge), the three price
cells are written, tagged `"ai"`, and the row's citation is recorded. -/
def autoQuoteStep (domainOf : String → String) (cn cu cd : Nat)
    (st : GridState) (q : QuotedRow) : Option GridState :=
  if q.rowId < (st.data.length : Int) then
    match jsIndex st.data q.rowId with
    | none => none
    | some row =>
      some { data := st.data.set q.rowId.toNat (applyQuoteRow cn cu cd q row)
             metadata := fun r c =>
               if r = q.rowId.toNat ∧ (c = cn ∨ c = cu ∨ c = cd) then some "ai"
               else st.metadata r c
             sources := fun r =>
               if r = q.rowId.toNat then some (quoteCitation domainOf q)
               else st.sources r }
  else some st

/-- The whole merge loop of `handleAutoQuote` over the returned quotes;
`none` models the loop throwing, in which case `handleAutoQuote` catches
and commits nothing. -/
def autoQuoteMerge (domainOf : String → String) (cn cu cd : Nat)
    (quotes : List QuotedRow) (st : GridState) : Option GridState :=
  quotes.foldlM (autoQuoteStep domainOf cn cu cd) st

/-! ## Conversational merge (`GeminiChat.handleSendMessage`) -/

/-- One element of the structured `rows` array of a conversational
update: `index` is `some` when the element carried a JavaScript number,
`data` is `some` when it carried an array (the `Array.isArray(r.data)`
guard), `citation` when present. -/
structure ChatRow where
  index : Option Int
  data : Option (List String)
  citation : Option ExtractionCitation
deriving DecidableEq

/-- The citation record written by the conversational merge. -/
def chatSourceInfo (c : ExtractionCitation) : RowSourceInfo :=
  { fileId := "gemini-chat", fileName := "Gemini Chat", citation := c }

/-- The source-map update of one conversational merge iteration. -/
def chatUpdateSrc (srcs : Nat → Option RowSourceInfo)
    (cit : Option ExtractionCitation) (idx : Nat) : Nat → Option RowSourceInfo :=
  match cit with
  | none => srcs
  | some c => fun r => if r = idx then some (chatSourceInfo c) else srcs r

/-- One iteration of `parsedObj.rows.forEach` in `handleSendMessage`:
skip elements without a data array; write in place when a numeric
`index` is in range of the *current* working grid; append otherwise. -/
def chatMergeStep (p : List (List String) × (Nat → Option RowSourceInfo))
    (r : ChatRow) : List (List String) × (Nat → Option RowSourceInfo) :=
  match r.data with
  | none => p
  | some d =>
    match r.index with
    | some i =>
      if 0 ≤ i ∧ i < (p.1.length : Int) then
        (p.1.set i.toNat d, chatUpdateSrc p.2 r.citation i.toNat)
      else
        (p.1 ++ [d], chatUpdateSrc p.2 r.citation p.1.length)
    | none => (p.1 ++ [d], chatUpdateSrc p.2 r.citation p.1.length)

/-- The structured conversational merge: fold the response rows over a
working copy of the grid, starting from an empty `newSources` map. -/
def chatMerge (data : List (List String)) (rows : List ChatRow) :
    List (List String) × (Nat → Option RowSourceInfo) :=
  rows.foldl chatMergeStep (data, fun _ => none)

/-- The grid produced by the structured conversational merge. -/
def chatMergeData (data : List (List String)) (rows : List ChatRow) :
    List (List String) :=
  (chatMerge data rows).1

/-- Count of response rows that the claim's static reading (index
compared against the *pre-merge* row count `n`) predicts are appended. -/
def staticAppendCount (n : Nat) (rows : List ChatRow) : Nat :=
  (rows.filter (fun r =>
    r.data.isSome &&
      (match r.index with
       | none => true
       | some i => decide (i < 0 ∨ (n : Int) ≤ i)))).length

/-! ## History manager (`commitToHistory`, `handleUndo`, `handleRedo`) -/

/-- `MAX_HISTORY` from `app/routes/home.tsx`. -/
def MAX_HISTORY : Nat := 10

/-- The Home component's state as far as history is concerned: the
current `(grid, provenance, citations)` triple plus the undo (`history`,
most recent last) and redo (`future`, most recent first) stacks. -/
structure AppState where
  current : GridState
  history : List GridState
  future : List GridState

/-- `commitToHistory`: push the current snapshot, evict the oldest
entries beyond `MAX_HISTORY` (the `slice(newHistory.length -
MAX_HISTORY)`), and clear the redo stack. -/
def commitToHistory (s : AppState) : AppState :=
  let newHistory := s.history ++ [s.current]
  { s with
    history :=
      if MAX_HISTORY < newHistory.length then
        newHistory.drop (newHistory.length - MAX_HISTORY)
      else newHistory
    future := [] }

/-- A committed mutation: `commitToHistory()` followed by setting the
new current state, as every mutating handler does. -/
def commitMutation (s : AppState) (g : GridState) : AppState :=
  { commitToHistory s with current := g }

/-- `handleUndo`: no-op on an empty undo stack; otherwise pop the most
recent snapshot, push the current state onto the redo stack, and restore
the popped snapshot. -/
def handleUndo (s : AppState) : AppState :=
  match s.history.getLast? with
  | none => s
  | some previous =>
    { current := previous
      history := s.history.dropLast
      future := s.current :: s.future }

/-- `handleRedo`: symmetric inverse of `handleUndo`. -/
def handleRedo (s : AppState) : AppState :=
  match s.future with
  | [] => s
  | next :: rest =>
    { current := next
      history := s.history ++ [s.current]
      future := rest }

/-- A sequence of committed mutations. -/
def applyCommits (s : AppState) (gs : List GridState) : AppState :=
  gs.foldl commitMutation s

/-- `k` successive `handleUndo` calls. -/
def applyUndos (s : AppState) : Nat → AppState
  | 0 => s
  | k + 1 => applyUndos (handleUndo s) k

/-! ## Concrete test inputs

Concrete response texts and `JSON.parse` oracles used by witnesses and
counterexamples. -/

/-- A gateway response containing the object `\x7b"rows": [1]\x7d`. -/
def exText : List Char := "x \x7b\"rows\": [1]\x7d".toList

/-- A `JSON.parse` oracle for the bracket-extracted part of `exText`. -/
def exParse : List Char → Option Json := fun s =>
  if s = ("\x7b\"rows\": [1]\x7d".toList) then
    some (Json.obj [("rows", Json.arr [Json.num 1])])
  else none

/-- A gateway response whose first `\x7b` comes after its last `\x7d`,
so the (argument-swapping) `substring` extracts the text between them. -/
def nullText : List Char := "\x7dnull\x7b".toList

/-- A `JSON.parse` oracle under which the substring extracted from
`nullText` parses successfully — to the JSON value `null`. -/
def nullParse : List Char → Option Json := fun s =>
  if s = ("null".toList) then some Json.null else none

/-- A gateway response whose `rows` array holds one element with no
`data` field at all. -/
def noDataText : List Char := "\x7b\"rows\": [\x7b\x7d]\x7d".toList

/-- A `JSON.parse` oracle for `noDataText`. -/
def noDataParse : List Char → Option Json := fun s =>
  if s = noDataText then
    some (Json.obj [("rows", Json.arr [Json.obj []])])
  else none

/-- A quoting gateway response: a JSON array with a single entry whose
`rowId` is `5`. -/
def quoteRespText : List Char := "[\x7b\"rowId\": 5\x7d]".toList

/-- A `JSON.parse` oracle for `quoteRespText`. -/
def quoteRespParse : List Char → Option Json := fun s =>
  if s = quoteRespText then
    some (Json.arr [Json.obj [("rowId", Json.num 5)]])
  else none

/-- A tiny grid state: header plus one data row, no provenance. -/
def smallGrid : GridState :=
  { data := [["h"], ["a"]], metadata := fun _ _ => none, sources := fun _ => none }

/-- A quote entry targeting the header row (rowId 0). -/
def headerQuote : QuotedRow :=
  { rowId := 0, totalNetPrice := "9.99", netPricePerUnit := "9.99",
    estimatedDelivery := "1-3", packQuantity := "1", sourceUrl := "",
    reasoning := "found" }

/-- A quote entry with a negative rowId. -/
def negQuote : QuotedRow :=
  { rowId := -1, totalNetPrice := "1", netPricePerUnit := "2",
    estimatedDelivery := "3", packQuantity := "4", sourceUrl := "",
    reasoning := "r" }

/-! # Theorems

General helper lemmas first, then for each claim its theorem together
with its witness or counterexample. -/

theorem list_contains_eq_decide_mem (l : List String) (a : String) :
    l.contains a = decide (a ∈ l) := by
  cases hc : l.contains a with
  | true => simp [List.elem_iff.mp hc]
  | false =>
    have hnm : a ∉ l := fun hm => by
      have hc2 : l.elem a = false := hc
      rw [List.elem_iff.mpr hm] at hc2
      cases hc2
    simp [hnm]

theorem getNextModel_mem_not_excluded {avail : List String} {cur next : String}
    {exc : List String} (h : getNextModel avail cur exc = some next) :
    next ∈ avail ∧ next ∉ exc := by
  unfold getNextModel at h
  constructor
  · exact (List.drop_sublist _ _).mem (List.mem_of_find?_eq_some h)
  · have hp := List.find?_some h
    rw [list_contains_eq_decide_mem] at hp
    simpa using hp

theorem fallbackAttempts_some {avail : List String} {current next : String}
    {failedList : List String}
    (h : getNextModel avail current (failedList ++ [current]) = some next) :
    fallbackAttempts avail current failedList
      = current :: fallbackAttempts avail next (failedList ++ [current]) := by
  rw [fallbackAttempts]
  split
  · rename_i next2 hnext2
    rw [hnext2] at h
    cases h
    rfl
  · rename_i hnone
    rw [hnone] at h
    cases h

theorem fallbackAttempts_none {avail : List String} {current : String}
    {failedList : List String}
    (h : getNextModel avail current (failedList ++ [current]) = none) :
    fallbackAttempts avail current failedList = [current] := by
  rw [fallbackAttempts]
  split
  · rename_i next2 hnext2
    rw [hnext2] at h
    cases h
  · rfl

theorem fallbackAttempts_sound (avail : List String) :
    ∀ (current : String) (failedList : List String), current ∉ failedList →
      (fallbackAttempts avail current failedList).Nodup ∧
      (∀ a ∈ fallbackAttempts avail current failedList, a = current ∨ a ∈ avail) ∧
      (∀ a ∈ fallbackAttempts avail current failedList, a ∉ failedList) := by
  intro current failedList
  induction current, failedList using fallbackAttempts.induct avail with
  | case1 current failedList next hnext ih =>
    intro hcur
    have hmem := getNextModel_mem_not_excluded hnext
    have ihh := ih hmem.2
    rw [fallbackAttempts_some hnext]
    refine ⟨?_, ?_, ?_⟩
    · apply List.nodup_cons.mpr
      refine ⟨?_, ihh.1⟩
      intro hin
      exact (ihh.2.2 current hin) (List.mem_append_right _ (List.mem_singleton_self current))
    · intro a ha
      rcases List.mem_cons.mp ha with rfl | hat
      · exact Or.inl rfl
      · rcases ihh.2.1 a hat with rfl | hmm
        · exact Or.inr hmem.1
        · exact Or.inr hmm
    · intro a ha
      rcases List.mem_cons.mp ha with rfl | hat
      · exact hcur
      · intro haf
        exact (ihh.2.2 a hat) (List.mem_append_left _ haf)
  | case2 current failedList hnone =>
    intro hcur
    rw [fallbackAttempts_none hnone]
    refine ⟨List.nodup_singleton _, ?_, ?_⟩
    · intro a ha
      rw [List.mem_singleton] at ha
      exact Or.inl ha
    · intro a ha
      rw [List.mem_singleton] at ha
      subst ha
      exact hcur

/-- Claim C1: for every ordered model list in which the start model
occurs, when every attempted model's generation call throws, the
fallback loop of `generateContentWithFallback` attempts each model at
most once (the attempt sequence has no duplicates and stays inside the
list), so the call terminates — `fallbackAttempts` is total — after at
most `avail.length` attempts, and then throws the exhaustion error. -/
theorem c1_fallback_exhaustion_bounded (avail : List String) (startModel : String)
    (hstart : startModel ∈ avail) :
    (fallbackAttempts avail startModel []).Nodup ∧
    (∀ a ∈ fallbackAttempts avail startModel [], a ∈ avail) ∧
    (fallbackAttempts avail startModel []).length ≤ avail.length := by
  obtain ⟨hnd, hsub, -⟩ := fallbackAttempts_sound avail startModel [] (by simp)
  have hsub2 : ∀ a ∈ fallbackAttempts avail startModel [], a ∈ avail := by
    intro a ha
    rcases hsub a ha with rfl | hmm
    · exact hstart
    · exact hmm
  refine ⟨hnd, hsub2, ?_⟩
  classical
  calc (fallbackAttempts avail startModel []).length
      = (fallbackAttempts avail startModel []).toFinset.card :=
        (List.toFinset_card_of_nodup hnd).symm
    _ ≤ avail.toFinset.card := by
        apply Finset.card_le_card
        intro x hx
        exact List.mem_toFinset.mpr (hsub2 x (List.mem_toFinset.mp hx))
    _ ≤ avail.length := List.toFinset_card_le avail

/-- Witness for C1 at the concrete list `["a", "b"]`. -/
theorem c1_fallback_exhaustion_bounded_witness :
    "a" ∈ ["a", "b"] ∧
      ((fallbackAttempts ["a", "b"] "a" []).Nodup ∧
        (∀ m ∈ fallbackAttempts ["a", "b"] "a" [], m ∈ ["a", "b"]) ∧
        (fallbackAttempts ["a", "b"] "a" []).length ≤ (["a", "b"] : List String).length) :=
  ⟨by decide, c1_fallback_exhaustion_bounded ["a", "b"] "a" (by decide)⟩

/-- Claim C9: when the start model is not an element of the list,
`indexOf` yields `-1`, the slice covers the whole list, and the model
selected after a failure is the first non-excluded element of the list;
in this situation an all-fail run makes at most `avail.length + 1`
attempts, and that bound is attained (second conjunct's concrete
instance). -/
theorem c9_missing_start_restarts_at_zero (avail : List String) (startModel : String)
    (hstart : startModel ∉ avail) :
    (∀ excluded, getNextModel avail startModel excluded
        = avail.find? (fun m => !(excluded.contains m))) ∧
    (fallbackAttempts avail startModel []).length ≤ avail.length + 1 ∧
    (fallbackAttempts ["a"] "b" []).length = (["a"] : List String).length + 1 := by
  have hidx : jsIndexOf avail startModel = -1 := by
    have hnone : avail.findIdx? (fun m => m == startModel) = none := by
      apply List.findIdx?_eq_none_iff.mpr
      intro x hx
      simp only [beq_eq_false_iff_ne, ne_eq]
      intro hxe
      exact hstart (hxe ▸ hx)
    unfold jsIndexOf
    rw [hnone]
  refine ⟨?_, ?_, ?_⟩
  · intro excluded
    unfold getNextModel
    rw [hidx]
    norm_num
  · obtain ⟨hnd, hsub, -⟩ := fallbackAttempts_sound avail startModel [] (by simp)
    classical
    calc (fallbackAttempts avail startModel []).length
        = (fallbackAttempts avail startModel []).toFinset.card :=
          (List.toFinset_card_of_nodup hnd).symm
      _ ≤ (insert startModel avail.toFinset).card := by
          apply Finset.card_le_card
          intro x hx
          rcases hsub x (List.mem_toFinset.mp hx) with rfl | hmm
          · exact Finset.mem_insert_self _ _
          · exact Finset.mem_insert_of_mem (List.mem_toFinset.mpr hmm)
      _ ≤ avail.toFinset.card + 1 := Finset.card_insert_le _ _
      _ ≤ avail.length + 1 := by
          have := List.toFinset_card_le avail
          omega
  · rw [@fallbackAttempts_some ["a"] "b" "a" [] (by rfl), fallbackAttempts_none (by rfl)]
    rfl

/-- Witness for C9 at the concrete list `["a", "b"]` and absent start
model `"z"`. -/
theorem c9_missing_start_restarts_at_zero_witness :
    "z" ∉ ["a", "b"] ∧
      ((∀ excluded, getNextModel ["a", "b"] "z" excluded
          = (["a", "b"] : List String).find? (fun m => !(excluded.contains m))) ∧
        (fallbackAttempts ["a", "b"] "z" []).length ≤ (["a", "b"] : List String).length + 1 ∧
        (fallbackAttempts ["a"] "b" []).length = (["a"] : List String).length + 1) :=
  ⟨by decide, c9_missing_start_restarts_at_zero ["a", "b"] "z" (by decide)⟩

/-- Counterexample for C6: for the response text `\x7dnull\x7b` the
first `\x7b` is at index 5 and the last `\x7d` at index 0, so
`substring(5, 1)` (arguments swapped) extracts `"null"`, which parses
successfully — yet the adapter returns `null`, because the source's
`parsedObj.rows` access on the parsed `null` throws a TypeError that
the inner `catch` converts to `null`.  This refutes "null is returned
only when the gateway call itself threw or the bracket-extracted
substring cannot be parsed as JSON at all". -/
theorem c6_counterexample :
    extractDataParse nullParse (GatewayResult.ok nullText "m") = none ∧
    firstOccur ['\x7b'] nullText = some 5 ∧
    lastOccur ['\x7d'] nullText = some 0 ∧
    nullParse (extractClean nullText 5 0) = some Json.null :=
  ⟨rfl, rfl, rfl, rfl⟩

/-- Claim C6 (amended): the extraction adapter returns the explicit
empty result (with the final model) when the response text lacks a
`\x7b` or a `\x7d`; it returns the parsed rows when bracket-extraction
yields parseable JSON whose value carries a `rows` array; and it
returns `null` exactly when the gateway call itself threw, when the
bracket-extracted substring cannot be parsed as JSON, or when that
substring parses to JSON `null` (the `parsedObj.rows` access then
throws a TypeError which the inner catch converts to `null`).  Empty
result and failure remain distinguishable at the return type. -/
theorem c6_error_classification :
    (∀ parse, extractDataParse parse GatewayResult.err = none) ∧
    (∀ parse (text : List Char) (fm : String),
      firstOccur ['\x7b'] text = none ∨ lastOccur ['\x7d'] text = none →
      extractDataParse parse (GatewayResult.ok text fm)
        = some ⟨[], fm⟩) ∧
    (∀ parse (text : List Char) (fm : String) (i j : Nat) (v : Json) (rs : List Json),
      firstOccur ['\x7b'] text = some i →
      lastOccur ['\x7d'] text = some j →
      parse (extractClean text i j) = some v →
      jsonLookup v "rows" = some (Json.arr rs) →
      extractDataParse parse (GatewayResult.ok text fm)
        = some ⟨rs, fm⟩) ∧
    (∀ parse (g : GatewayResult), extractDataParse parse g = none →
      g = GatewayResult.err ∨
      ∃ (text : List Char) (fm : String) (i j : Nat),
        g = GatewayResult.ok text fm ∧
        firstOccur ['\x7b'] text = some i ∧
        lastOccur ['\x7d'] text = some j ∧
        (parse (extractClean text i j) = none ∨
          parse (extractClean text i j) = some Json.null)) := by
  refine ⟨fun parse => rfl, ?_, ?_, ?_⟩
  · intro parse text fm h
    rcases hf : firstOccur ['\x7b'] text with _ | i <;>
      rcases hl : lastOccur ['\x7d'] text with _ | j <;>
        simp only [extractDataParse, hf, hl]
    rcases h with h | h
    · rw [hf] at h
      cases h
    · rw [hl] at h
      cases h
  · intro parse text fm i j v rs hf hl hp hr
    cases v with
    | obj fields => simp only [extractDataParse, hf, hl, hp, hr]
    | arr es => simp [jsonLookup] at hr
    | str s => simp [jsonLookup] at hr
    | num n => simp [jsonLookup] at hr
    | bool b => simp [jsonLookup] at hr
    | null => simp [jsonLookup] at hr
  · intro parse g hnone
    cases g with
    | err => exact Or.inl rfl
    | ok text fm =>
      refine Or.inr ?_
      rcases hf : firstOccur ['\x7b'] text with _ | i <;>
        rcases hl : lastOccur ['\x7d'] text with _ | j <;>
          simp only [extractDataParse, hf, hl] at hnone
      · cases hnone
      · cases hnone
      · cases hnone
      · refine ⟨text, fm, i, j, rfl, hf, hl, ?_⟩
        rcases hp : parse (extractClean text i j) with _ | v
        · exact Or.inl rfl
        · cases v with
          | null => exact Or.inr rfl
          | obj fields =>
            simp only [hp] at hnone
            rcases hr : jsonLookup (Json.obj fields) "rows" with _ | w
            · simp only [hr] at hnone
              cases hnone
            · cases w <;> simp only [hr] at hnone <;> cases hnone
          | arr es => simp [hp, jsonLookup] at hnone
          | str s2 => simp [hp, jsonLookup] at hnone
          | num n => simp [hp, jsonLookup] at hnone
          | bool b => simp [hp, jsonLookup] at hnone

/-- Witness for C6 (amended): the happy path on `exText` returns the
parsed rows, a delimiter-free text returns the explicit empty result,
and the theorem's null-classification applied to the `nullText`
response yields the JSON-null prong. -/
theorem c6_error_classification_witness :
    extractDataParse exParse (GatewayResult.ok exText "m")
      = some ⟨[Json.num 1], "m"⟩ ∧
    extractDataParse exParse (GatewayResult.ok ("no braces".toList) "m")
      = some ⟨[], "m"⟩ ∧
    (GatewayResult.ok nullText "m" = GatewayResult.err ∨
      ∃ (text : List Char) (fm : String) (i j : Nat),
        GatewayResult.ok nullText "m" = GatewayResult.ok text fm ∧
        firstOccur ['\x7b'] text = some i ∧
        lastOccur ['\x7d'] text = some j ∧
        (nullParse (extractClean text i j) = none ∨
          nullParse (extractClean text i j) = some Json.null)) :=
  ⟨c6_error_classification.2.2.1 exParse exText "m" 2 14
      (Json.obj [("rows", Json.arr [Json.num 1])]) [Json.num 1]
      (by rfl) (by rfl) (by rfl) (by rfl),
    c6_error_classification.2.1 exParse ("no braces".toList) "m"
      (Or.inl (by rfl)),
    c6_error_classification.2.2.2 nullParse (GatewayResult.ok nullText "m")
      (by rfl)⟩

/-- Counterexample for C7: on `noDataText` the adapter's `rows` list
contains the element `\x7b\x7d`, which has no `data` field at all —
the source only checks `Array.isArray(parsedObj.rows)` and returns the
elements wholesale, so rows lacking a `data` array are passed through,
not dropped. -/
theorem c7_counterexample :
    ¬ (∀ res, extractDataParse noDataParse (GatewayResult.ok noDataText "m")
          = some res →
        ∀ j ∈ res.rows, ∃ l, jsonLookup j "data" = some (Json.arr l)) := by
  intro h
  obtain ⟨l, hl⟩ := h ⟨[Json.obj []], "m"⟩ rfl (Json.obj [])
    (List.mem_singleton_self _)
  exact Option.noConfusion hl

/-- Claim C7 (amended): the extraction adapter validates only that the
top-level `rows` value is an array; the elements are returned exactly
as parsed — an element lacking a `data` array is passed through (and
does not fail the batch), never dropped. -/
theorem c7_rows_passed_through_unvalidated :
    ∀ (parse : List Char → Option Json) (text : List Char) (fm : String)
      (i j : Nat) (v : Json) (rs : List Json),
      firstOccur ['\x7b'] text = some i →
      lastOccur ['\x7d'] text = some j →
      parse (extractClean text i j) = some v →
      jsonLookup v "rows" = some (Json.arr rs) →
      (extractDataParse parse (GatewayResult.ok text fm)).map ExtractResult.rows
        = some rs := by
  intro parse text fm i j v rs hf hl hp hr
  cases v with
  | obj fields => simp only [extractDataParse, hf, hl, hp, hr, Option.map_some']
  | arr es => simp [jsonLookup] at hr
  | str s2 => simp [jsonLookup] at hr
  | num n => simp [jsonLookup] at hr
  | bool b => simp [jsonLookup] at hr
  | null => simp [jsonLookup] at hr

/-- Witness for C7 (amended) at `noDataText`: the returned rows list is
exactly the parsed one, element without `data` array included. -/
theorem c7_rows_passed_through_unvalidated_witness :
    (extractDataParse noDataParse (GatewayResult.ok noDataText "m")).map
        ExtractResult.rows
      = some [Json.obj []] :=
  c7_rows_passed_through_unvalidated noDataParse noDataText "m" 0 13
    (Json.obj [("rows", Json.arr [Json.obj []])]) [Json.obj []]
    (by rfl) (by rfl) (by rfl) (by rfl)

/-- Counterexample for C8: for the one-row input `[["a"]]` (so the
claim demands exactly one returned entry with `rowId` 1), the gateway
response `quoteRespText` parses successfully and `quoteProducts`
returns it as-is: one entry whose `rowId` is 5, not 1 — the source
never validates the returned `rowId`s against the input rows. -/
theorem c8_counterexample :
    ¬ (∀ l, quoteProductsParse quoteRespParse (GatewayResult.ok quoteRespText "m")
          = some l →
        some (Json.num 1) ∈ l.map (fun j => jsonLookup j "rowId")) := by
  intro h
  have h1 := h [Json.obj [("rowId", Json.num 5)]] rfl
  have h2 : ([Json.obj [("rowId", Json.num 5)]].map (fun j => jsonLookup j "rowId"))
      = [some (Json.num 5)] := rfl
  rw [h2, List.mem_singleton] at h1
  injection h1 with h3
  injection h3 with h4
  exact absurd h4 (by norm_num)

/-- Claim C8 (amended): `quoteProducts` assigns `rowId`s 1..n in order
before sending (first conjunct), but a successful (non-null) return is
the parsed JSON array exactly as the model produced it — its length and
`rowId` values are not validated against the input rows; the
one-entry-per-row / sentinel-not-found behaviour is only requested in
the prompt (second conjunct: pass-through). -/
theorem c8_rowids_assigned_output_unvalidated :
    (∀ rows : List (List String),
      (itemsToQuote rows).map (fun item => item.rowId)
        = (List.range rows.length).map (fun i => i + 1)) ∧
    (∀ (parse : List Char → Option Json) (text m : List Char) (fm : String)
        (l : List Json),
      quoteJsonMatch text = some m →
      parse (jsTrim (stripFences m)) = some (Json.arr l) →
      quoteProductsParse parse (GatewayResult.ok text fm) = some l) := by
  constructor
  · intro rows
    unfold itemsToQuote
    rw [List.map_map]
    have hcomp : ((fun item : QuoteItem => item.rowId)
          ∘ (fun p : Nat × List String => (⟨p.1 + 1, p.2⟩ : QuoteItem)))
        = (fun i => i + 1) ∘ Prod.fst := rfl
    rw [hcomp, ← List.map_map, List.enum_map_fst]
  · intro parse text m fm l hm hp
    simp only [quoteProductsParse, hm, hp]

/-- Witness for C8 (amended): the `rowId` assignment on a two-row input
and the pass-through on `quoteRespText`. -/
theorem c8_rowids_assigned_output_unvalidated_witness :
    (itemsToQuote [["a"], ["b"]]).map (fun item => item.rowId)
        = (List.range 2).map (fun i => i + 1) ∧
    quoteProductsParse quoteRespParse (GatewayResult.ok quoteRespText "m")
        = some [Json.obj [("rowId", Json.num 5)]] :=
  ⟨c8_rowids_assigned_output_unvalidated.1 [["a"], ["b"]],
    c8_rowids_assigned_output_unvalidated.2 quoteRespParse quoteRespText
      quoteRespText "m" [Json.obj [("rowId", Json.num 5)]] (by rfl) (by rfl)⟩

theorem getD_map_some {α β : Type} (f : α → β) (l : List α) (i : Nat) (a : α)
    (d : β) (h : l.get? i = some a) : (l.map f).getD i d = f a := by
  rw [List.getD_eq_getElem?_getD, List.getElem?_map, ← List.get?_eq_getElem?, h]
  rfl

theorem getD_map_none {α β : Type} (f : α → β) (l : List α) (i : Nat) (d : β)
    (h : l.get? i = none) : (l.map f).getD i d = d := by
  rw [List.getD_eq_getElem?_getD, List.getElem?_map, ← List.get?_eq_getElem?, h]
  rfl

theorem map_getD_range {α : Type} (l : List α) (d : α) :
    (List.range l.length).map (fun i => l.getD i d) = l := by
  induction l with
  | nil => rfl
  | cons a t ih =>
    rw [List.length_cons, List.range_succ_eq_map, List.map_cons, List.map_map]
    have hcomp : ((fun i => (a :: t).getD i d) ∘ Nat.succ) = (fun i => t.getD i d) := by
      funext i
      exact List.getD_cons_succ
    rw [hcomp, ih]
    rfl

theorem clean_data_getD {id : String} {st : GridState} {r oldIdx : Nat}
    (h : (keepIndices id st).get? r = some oldIdx) :
    (removeDataForFileId id st).data.getD r [] = st.data.getD oldIdx [] := by
  show ((keepIndices id st).map (fun idx => st.data.getD idx [])).getD r [] = _
  exact getD_map_some _ _ _ _ _ h

theorem clean_data_getD_none {id : String} {st : GridState} {r : Nat}
    (h : (keepIndices id st).get? r = none) :
    (removeDataForFileId id st).data.getD r [] = [] := by
  show ((keepIndices id st).map (fun idx => st.data.getD idx [])).getD r [] = _
  exact getD_map_none _ _ _ _ h

theorem clean_metadata_some {id : String} {st : GridState} {r oldIdx : Nat}
    (c : Nat) (h : (keepIndices id st).get? r = some oldIdx) :
    (removeDataForFileId id st).metadata r c
      = if c < (st.data.getD oldIdx []).length then
          match st.metadata oldIdx c with
          | some s => if s = "" then none else some s
          | none => none
        else none := by
  show (match (keepIndices id st).get? r with
    | some oldIdx2 =>
      if c < (st.data.getD oldIdx2 []).length then
        match st.metadata oldIdx2 c with
        | some s => if s = "" then none else some s
        | none => none
      else none
    | none => none) = _
  rw [h]

theorem clean_sources_some {id : String} {st : GridState} {r oldIdx : Nat}
    (h : (keepIndices id st).get? r = some oldIdx) :
    (removeDataForFileId id st).sources r = st.sources oldIdx := by
  show (match (keepIndices id st).get? r with
    | some oldIdx2 => st.sources oldIdx2
    | none => none) = _
  rw [h]

theorem clean_sources_none {id : String} {st : GridState} {r : Nat}
    (h : (keepIndices id st).get? r = none) :
    (removeDataForFileId id st).sources r = none := by
  show (match (keepIndices id st).get? r with
    | some oldIdx2 => st.sources oldIdx2
    | none => none) = _
  rw [h]

theorem keep_not_from_file {id : String} {st : GridState} {r oldIdx : Nat}
    (hr : 1 ≤ r) (h : (keepIndices id st).get? r = some oldIdx) :
    rowFromFile id st oldIdx = false := by
  unfold keepIndices at h
  obtain ⟨r2, rfl⟩ : ∃ r2, r = r2 + 1 := ⟨r - 1, by omega⟩
  rw [List.get?_cons_succ] at h
  have hmem := List.get?_mem h
  have hpred := (List.mem_filter.mp hmem).2
  simpa using hpred

theorem clean_kept_row_not_from_file {id : String} {st : GridState}
    {r oldIdx : Nat} (h : (keepIndices id st).get? r = some oldIdx)
    (hfalse : rowFromFile id st oldIdx = false) :
    rowFromFile id (removeDataForFileId id st) r = false := by
  unfold rowFromFile at hfalse
  rw [Bool.or_eq_false_iff] at hfalse
  obtain ⟨hany, hsrc⟩ := hfalse
  unfold rowFromFile
  rw [Bool.or_eq_false_iff]
  constructor
  · rw [List.any_eq_false]
    intro c hc
    rw [clean_data_getD h] at hc
    have hlt : c < (st.data.getD oldIdx []).length := List.mem_range.mp hc
    rw [clean_metadata_some c h, if_pos hlt]
    have hmc := List.any_eq_false.mp hany c (List.mem_range.mpr hlt)
    rcases hm : st.metadata oldIdx c with _ | s
    · simp
    · rw [hm] at hmc
      by_cases hs : s = ""
      · simp [hs]
      · simpa [hs] using hmc
  · rw [clean_sources_some h]
    exact hsrc

theorem clean_no_residue (id : String) (st : GridState) :
    ∀ r, 1 ≤ r → rowFromFile id (removeDataForFileId id st) r = false := by
  intro r hr
  rcases hk : (keepIndices id st).get? r with _ | oldIdx
  · unfold rowFromFile
    rw [Bool.or_eq_false_iff]
    constructor
    · rw [clean_data_getD_none hk]
      rfl
    · rw [clean_sources_none hk]
  · exact clean_kept_row_not_from_file hk (keep_not_from_file hr hk)

theorem merged_data_getD {id fname : String} {rows : List ExtractedRow}
    {cl : GridState} {r : Nat} (hr : r < cl.data.length) :
    (mergeExtraction id fname rows cl).data.getD r [] = cl.data.getD r [] := by
  show (cl.data ++ rows.map (fun row => row.data)).getD r [] = _
  rw [List.getD_eq_getElem?_getD, List.getElem?_append_left hr,
    ← List.getD_eq_getElem?_getD]

theorem merged_metadata_lt {id fname : String} {rows : List ExtractedRow}
    {cl : GridState} {r : Nat} (hr : r < cl.data.length) (c : Nat) :
    (mergeExtraction id fname rows cl).metadata r c = cl.metadata r c := by
  show (if cl.data.length ≤ r ∧ r < cl.data.length + rows.length ∧
      c < ((rows.getD (r - cl.data.length) default).data).length then
        some (extractionTag id)
      else cl.metadata r c) = _
  rw [if_neg]
  intro hcon
  omega

theorem merged_sources_lt {id fname : String} {rows : List ExtractedRow}
    {cl : GridState} {r : Nat} (hr : r < cl.data.length) :
    (mergeExtraction id fname rows cl).sources r = cl.sources r := by
  show (if cl.data.length ≤ r ∧ r < cl.data.length + rows.length then
      some { fileId := id, fileName := fname
             citation := (rows.getD (r - cl.data.length) default).citation }
    else cl.sources r) = _
  rw [if_neg]
  intro hcon
  omega

theorem merged_sources_appended {id fname : String} {rows : List ExtractedRow}
    {cl : GridState} {r : Nat} (hge : cl.data.length ≤ r)
    (hlt : r < cl.data.length + rows.length) :
    (mergeExtraction id fname rows cl).sources r
      = some { fileId := id, fileName := fname
               citation := (rows.getD (r - cl.data.length) default).citation } := by
  show (if cl.data.length ≤ r ∧ r < cl.data.length + rows.length then
      some { fileId := id, fileName := fname
             citation := (rows.getD (r - cl.data.length) default).citation }
    else cl.sources r) = _
  rw [if_pos ⟨hge, hlt⟩]

theorem merged_rowFromFile_lt {id fname : String} {rows : List ExtractedRow}
    {cl : GridState} {r : Nat} (hr : r < cl.data.length) :
    rowFromFile id (mergeExtraction id fname rows cl) r = rowFromFile id cl r := by
  unfold rowFromFile
  rw [merged_data_getD hr]
  have hfun : (fun c => (mergeExtraction id fname rows cl).metadata r c
        == some (extractionTag id))
      = (fun c => cl.metadata r c == some (extractionTag id)) :=
    funext fun c => by rw [merged_metadata_lt hr c]
  rw [hfun, merged_sources_lt hr]

theorem merged_rowFromFile_appended {id fname : String} {rows : List ExtractedRow}
    {cl : GridState} {r : Nat} (hge : cl.data.length ≤ r)
    (hlt : r < cl.data.length + rows.length) :
    rowFromFile id (mergeExtraction id fname rows cl) r = true := by
  unfold rowFromFile
  rw [merged_sources_appended hge hlt]
  simp

theorem merged_data_length {id fname : String} {rows : List ExtractedRow}
    {cl : GridState} :
    (mergeExtraction id fname rows cl).data.length
      = cl.data.length + rows.length := by
  show (cl.data ++ rows.map (fun row => row.data)).length = _
  simp

theorem clean_data_length_pos (id : String) (st : GridState) :
    1 ≤ (removeDataForFileId id st).data.length := by
  show 1 ≤ ((keepIndices id st).map (fun idx => st.data.getD idx [])).length
  rw [List.length_map]
  unfold keepIndices
  rw [List.length_cons]
  omega

theorem keepIndices_split (id : String) (st2 : GridState) (b : Nat)
    (hb : 1 ≤ b) (hlen : b ≤ st2.data.length)
    (hlow : ∀ r, 1 ≤ r → r < b → rowFromFile id st2 r = false)
    (hhigh : ∀ r, b ≤ r → r < st2.data.length → rowFromFile id st2 r = true) :
    keepIndices id st2 = List.range b := by
  unfold keepIndices
  have hdecomp : st2.data.length = b + (st2.data.length - b) := by omega
  rw [hdecomp, List.range_add,
    List.drop_append_of_le_length (by rw [List.length_range]; omega),
    List.filter_append]
  have hcons : List.range b = 0 :: (List.range b).drop 1 := by
    obtain ⟨b2, rfl⟩ : ∃ b2, b = b2 + 1 := ⟨b - 1, by omega⟩
    rw [List.range_succ_eq_map]
    rfl
  have hf1 : ((List.range b).drop 1).filter (fun r => !(rowFromFile id st2 r))
      = (List.range b).drop 1 := by
    apply List.filter_eq_self.mpr
    intro r hr
    have hrb : r < b := List.mem_range.mp (List.mem_of_mem_drop hr)
    have hr1 : 1 ≤ r := by
      by_contra h0
      have hr0 : r = 0 := by omega
      subst hr0
      have hnd := List.nodup_range b
      rw [hcons] at hnd
      exact (List.nodup_cons.mp hnd).1 hr
    simp [hlow r hr1 hrb]
  have hf2 : ((List.range (st2.data.length - b)).map (fun x => b + x)).filter
      (fun r => !(rowFromFile id st2 r)) = [] := by
    apply List.filter_eq_nil_iff.mpr
    intro a ha
    rw [List.mem_map] at ha
    obtain ⟨x, hx, rfl⟩ := ha
    have hxlt : x < st2.data.length - b := List.mem_range.mp hx
    simp [hhigh (b + x) (Nat.le_add_right _ _) (by omega)]
  rw [hf1, hf2, List.append_nil]
  exact hcons.symm

theorem clean_merged_data (id fname : String) (rows : List ExtractedRow)
    (st : GridState) :
    (removeDataForFileId id
        (mergeExtraction id fname rows (removeDataForFileId id st))).data
      = (removeDataForFileId id st).data := by
  have hb1 : 1 ≤ (removeDataForFileId id st).data.length :=
    clean_data_length_pos id st
  have hkeep : keepIndices id
        (mergeExtraction id fname rows (removeDataForFileId id st))
      = List.range (removeDataForFileId id st).data.length := by
    apply keepIndices_split
    · exact hb1
    · rw [merged_data_length]
      omega
    · intro r h1 h2
      rw [merged_rowFromFile_lt h2]
      exact clean_no_residue id st r h1
    · intro r h1 h2
      rw [merged_data_length] at h2
      exact merged_rowFromFile_appended h1 h2
  show (keepIndices id
        (mergeExtraction id fname rows (removeDataForFileId id st))).map
      (fun idx =>
        (mergeExtraction id fname rows (removeDataForFileId id st)).data.getD idx [])
    = (removeDataForFileId id st).data
  rw [hkeep]
  rw [List.map_congr_left (fun i hi => merged_data_getD (List.mem_range.mp hi))]
  exact map_getD_range (removeDataForFileId id st).data []

/-- Claim C2: the extraction merge (clean the rows attributable to
reference file `id`, renumber the survivors, then append the freshly
extracted rows tagged `extraction-<id>`) is idempotent on the grid: a
second run over an unchanged extraction result yields exactly the same
data (hence the same row count and cell values), because the second
run's clean step removes precisely the rows appended by the first run
(second conjunct: cleaning the once-merged state recovers the
once-cleaned grid, so no row from the first run's contribution
survives). -/
theorem c2_extraction_merge_idempotent (id fname : String)
    (rows : List ExtractedRow) (st : GridState) :
    (extractionMerge id fname rows (extractionMerge id fname rows st)).data
        = (extractionMerge id fname rows st).data ∧
    (removeDataForFileId id (extractionMerge id fname rows st)).data
        = (removeDataForFileId id st).data := by
  have hkey : (removeDataForFileId id
        (mergeExtraction id fname rows (removeDataForFileId id st))).data
      = (removeDataForFileId id st).data := clean_merged_data id fname rows st
  unfold extractionMerge
  refine ⟨?_, hkey⟩
  show (removeDataForFileId id
        (mergeExtraction id fname rows (removeDataForFileId id st))).data
      ++ rows.map (fun row => row.data)
    = (removeDataForFileId id st).data ++ rows.map (fun row => row.data)
  rw [hkey]

/-- Claim C3: when an extraction round-trip returns no usable rows
(adapter returned `null`, or a result with zero rows), `runExtraction`
still returns — without throwing — the cleaned state (grid, provenance
and citations with every row attributable to the file removed and the
rest renumbered), records the per-source error message for the file
(leaving other files' errors untouched), and the committed grid holds
no row attributable to the file. -/
theorem c3_failed_extraction_commits_cleaned (id fname : String)
    (result : Option (List ExtractedRow)) (st : GridState) (errors : ErrMap)
    (hres : result = none ∨ result = some [])
    (hne : 0 < st.data.length) :
    ∃ errs2 : ErrMap,
      runExtraction id fname result st errors
          = some (removeDataForFileId id st, errs2) ∧
      errs2 id = some (extractionErrorMsg fname) ∧
      (∀ k, k ≠ id → errs2 k = errors k) ∧
      (∀ r, 1 ≤ r → rowFromFile id (removeDataForFileId id st) r = false) := by
  have hguard : ¬ st.data.length = 0 := by omega
  rcases hres with rfl | rfl
  · refine ⟨(fun k => if k = id then some (extractionErrorMsg fname)
        else if k = id then none else errors k), ?_, ?_, ?_, clean_no_residue id st⟩
    · unfold runExtraction
      rw [if_neg hguard]
    · simp
    · intro k hk
      simp [hk]
  · refine ⟨(fun k => if k = id then some (extractionErrorMsg fname)
        else if k = id then none else errors k), ?_, ?_, ?_, clean_no_residue id st⟩
    · unfold runExtraction
      rw [if_neg hguard]
      rfl
    · simp
    · intro k hk
      simp [hk]

/-- Witness for C3: a failed (null) extraction for file `"F"` on the
two-row grid commits exactly the cleaned state and the error entry. -/
theorem c3_failed_extraction_commits_cleaned_witness :
    ∃ errs2 : ErrMap,
      runExtraction "F" "ref.pdf" none smallGrid (fun _ => none)
          = some (removeDataForFileId "F" smallGrid, errs2) ∧
      errs2 "F" = some (extractionErrorMsg "ref.pdf") ∧
      (∀ k, k ≠ "F" → errs2 k = (fun _ => (none : Option String)) k) ∧
      (∀ r, 1 ≤ r → rowFromFile "F" (removeDataForFileId "F" smallGrid) r = false) :=
  c3_failed_extraction_commits_cleaned "F" "ref.pdf" none smallGrid
    (fun _ => none) (Or.inl rfl) (by decide)

theorem autoQuoteStep_skip {domainOf : String → String} {cn cu cd : Nat}
    {st : GridState} {q : QuotedRow}
    (h : (st.data.length : Int) ≤ q.rowId) :
    autoQuoteStep domainOf cn cu cd st q = some st := by
  unfold autoQuoteStep
  rw [if_neg (by omega)]

theorem autoQuoteStep_write {domainOf : String → String} {cn cu cd : Nat}
    {st : GridState} {q : QuotedRow} (h0 : 0 ≤ q.rowId)
    (hlt : q.rowId < (st.data.length : Int)) :
    autoQuoteStep domainOf cn cu cd st q = some
      { data := st.data.set q.rowId.toNat
          (applyQuoteRow cn cu cd q (st.data.getD q.rowId.toNat []))
        metadata := fun r c =>
          if r = q.rowId.toNat ∧ (c = cn ∨ c = cu ∨ c = cd) then some "ai"
          else st.metadata r c
        sources := fun r =>
          if r = q.rowId.toNat then some (quoteCitation domainOf q)
          else st.sources r } := by
  have hnat : q.rowId.toNat < st.data.length := by omega
  have hg : st.data.getD q.rowId.toNat [] = st.data[q.rowId.toNat] := by
    rw [List.getD_eq_getElem?_getD, List.getElem?_eq_getElem hnat]
    rfl
  unfold autoQuoteStep jsIndex
  rw [if_pos hlt, if_pos h0, List.get?_eq_getElem?, List.getElem?_eq_getElem hnat, hg]

theorem autoQuoteMerge_ok (domainOf : String → String) (cn cu cd : Nat) :
    ∀ (quotes : List QuotedRow) (st : GridState),
      (∀ q ∈ quotes, 0 ≤ q.rowId) →
      ((quotes.map (fun q => q.rowId)).Nodup) →
      ∃ st2, autoQuoteMerge domainOf cn cu cd quotes st = some st2 ∧
        st2.data.length = st.data.length ∧
        (∀ q ∈ quotes, q.rowId < (st.data.length : Int) →
          st2.data.get? q.rowId.toNat
              = some (applyQuoteRow cn cu cd q (st.data.getD q.rowId.toNat [])) ∧
          st2.metadata q.rowId.toNat cn = some "ai" ∧
          st2.metadata q.rowId.toNat cu = some "ai" ∧
          st2.metadata q.rowId.toNat cd = some "ai" ∧
          st2.sources q.rowId.toNat = some (quoteCitation domainOf q)) ∧
        (∀ r : Nat, (∀ q ∈ quotes, q.rowId ≠ (r : Int)) →
          st2.data.get? r = st.data.get? r ∧
          (∀ c, st2.metadata r c = st.metadata r c) ∧
          st2.sources r = st.sources r) := by
  intro quotes
  induction quotes with
  | nil =>
    intro st _ _
    refine ⟨st, rfl, rfl, ?_, ?_⟩
    · intro q hq
      cases hq
    · intro r _
      exact ⟨rfl, fun c => rfl, rfl⟩
  | cons q0 rest ih =>
    intro st hnn hnd
    have h0 : 0 ≤ q0.rowId := hnn q0 (List.mem_cons_self _ _)
    have hnnr : ∀ q ∈ rest, 0 ≤ q.rowId := fun q hq => hnn q (List.mem_cons_of_mem _ hq)
    rw [List.map_cons, List.nodup_cons] at hnd
    obtain ⟨hq0nin, hndr⟩ := hnd
    by_cases hq0 : q0.rowId < (st.data.length : Int)
    · have hstep := @autoQuoteStep_write domainOf cn cu cd st q0 h0 hq0
      set st1 : GridState :=
        { data := st.data.set q0.rowId.toNat
            (applyQuoteRow cn cu cd q0 (st.data.getD q0.rowId.toNat []))
          metadata := fun r c =>
            if r = q0.rowId.toNat ∧ (c = cn ∨ c = cu ∨ c = cd) then some "ai"
            else st.metadata r c
          sources := fun r =>
            if r = q0.rowId.toNat then some (quoteCitation domainOf q0)
            else st.sources r } with hst1
      obtain ⟨st2, hmerge, hlen, hwritten, hframe⟩ := ih st1 hnnr hndr
      have hlen1 : st1.data.length = st.data.length := by
        rw [hst1]
        exact List.length_set _ _ _
      refine ⟨st2, ?_, ?_, ?_, ?_⟩
      · unfold autoQuoteMerge at hmerge ⊢
        rw [List.foldlM_cons, hstep]
        simpa using hmerge
      · rw [hlen, hlen1]
      · intro q hq hqlt
        rcases List.mem_cons.mp hq with rfl | hqr
        · have hr0 : ∀ q2 ∈ rest, q2.rowId ≠ ((q.rowId.toNat : Nat) : Int) := by
            intro q2 hq2 hq2eq
            apply hq0nin
            rw [List.mem_map]
            exact ⟨q2, hq2, by omega⟩
          obtain ⟨hd, hm, hs⟩ := hframe q.rowId.toNat hr0
          have hnat : q.rowId.toNat < st.data.length := by omega
          refine ⟨?_, ?_, ?_, ?_, ?_⟩
          · rw [hd, hst1]
            show (st.data.set q.rowId.toNat
                (applyQuoteRow cn cu cd q (st.data.getD q.rowId.toNat []))).get?
                q.rowId.toNat = _
            rw [List.get?_eq_getElem?, List.getElem?_set_self hnat]
          · rw [hm cn, hst1]
            show (if q.rowId.toNat = q.rowId.toNat ∧ (cn = cn ∨ cn = cu ∨ cn = cd)
                then some "ai" else st.metadata q.rowId.toNat cn) = some "ai"
            rw [if_pos ⟨rfl, Or.inl rfl⟩]
          · rw [hm cu, hst1]
            show (if q.rowId.toNat = q.rowId.toNat ∧ (cu = cn ∨ cu = cu ∨ cu = cd)
                then some "ai" else st.metadata q.rowId.toNat cu) = some "ai"
            rw [if_pos ⟨rfl, Or.inr (Or.inl rfl)⟩]
          · rw [hm cd, hst1]
            show (if q.rowId.toNat = q.rowId.toNat ∧ (cd = cn ∨ cd = cu ∨ cd = cd)
                then some "ai" else st.metadata q.rowId.toNat cd) = some "ai"
            rw [if_pos ⟨rfl, Or.inr (Or.inr rfl)⟩]
          · rw [hs, hst1]
            show (if q.rowId.toNat = q.rowId.toNat
                then some (quoteCitation domainOf q) else st.sources q.rowId.toNat)
              = some (quoteCitation domainOf q)
            rw [if_pos rfl]
        · have hq0q : 0 ≤ q.rowId := hnnr q hqr
          have hlt1 : q.rowId < (st1.data.length : Int) := by
            rw [hlen1]
            exact hqlt
          have hq2 := hwritten q hqr hlt1
          have hne : q0.rowId.toNat ≠ q.rowId.toNat := by
            intro he
            apply hq0nin
            rw [List.mem_map]
            refine ⟨q, hqr, ?_⟩
            omega
          have hgd : st1.data.getD q.rowId.toNat [] = st.data.getD q.rowId.toNat [] := by
            rw [hst1]
            show (st.data.set q0.rowId.toNat
                (applyQuoteRow cn cu cd q0 (st.data.getD q0.rowId.toNat []))).getD
                q.rowId.toNat [] = _
            rw [List.getD_eq_getElem?_getD, List.getElem?_set_ne hne,
              ← List.getD_eq_getElem?_getD]
          rw [hgd] at hq2
          exact hq2
      · intro r hr
        have hrr : ∀ q ∈ rest, q.rowId ≠ (r : Int) :=
          fun q hq => hr q (List.mem_cons_of_mem _ hq)
        obtain ⟨hd, hm, hs⟩ := hframe r hrr
        have hq0r : q0.rowId.toNat ≠ r := by
          intro he
          exact hr q0 (List.mem_cons_self _ _) (by omega)
        refine ⟨?_, ?_, ?_⟩
        · rw [hd, hst1]
          show (st.data.set q0.rowId.toNat
              (applyQuoteRow cn cu cd q0 (st.data.getD q0.rowId.toNat []))).get? r
            = st.data.get? r
          rw [List.get?_eq_getElem?, List.getElem?_set_ne hq0r, ← List.get?_eq_getElem?]
        · intro c
          rw [hm c, hst1]
          show (if r = q0.rowId.toNat ∧ (c = cn ∨ c = cu ∨ c = cd) then some "ai"
              else st.metadata r c) = st.metadata r c
          rw [if_neg]
          intro hcon
          exact hq0r hcon.1.symm
        · rw [hs, hst1]
          show (if r = q0.rowId.toNat then some (quoteCitation domainOf q0)
              else st.sources r) = st.sources r
          rw [if_neg (fun hcon => hq0r hcon.symm)]
    · have hstep : autoQuoteStep domainOf cn cu cd st q0 = some st := by
        unfold autoQuoteStep
        rw [if_neg hq0]
      obtain ⟨st2, hmerge, hlen, hwritten, hframe⟩ := ih st hnnr hndr
      refine ⟨st2, ?_, hlen, ?_, ?_⟩
      · unfold autoQuoteMerge at hmerge ⊢
        rw [List.foldlM_cons, hstep]
        simpa using hmerge
      · intro q hq hqlt
        rcases List.mem_cons.mp hq with rfl | hqr
        · exact absurd hqlt hq0
        · exact hwritten q hqr hqlt
      · intro r hr
        exact hframe r (fun q hq => hr q (List.mem_cons_of_mem _ hq))

/-- Counterexample for C10: a quote entry with `rowId = -1` on the
two-row grid has `rowId` less than the row count, but instead of being
written, the merge aborts (`handleAutoQuote`'s loop spreads
`updatedData[-1]`, which is `undefined`, throwing a TypeError that is
caught, so nothing at all is committed) — refuting "written if and only
if rowId is less than the total row count". -/
theorem c10_counterexample :
    autoQuoteMerge (fun _ => "") 1 2 3 [negQuote] smallGrid = none ∧
    negQuote.rowId < (smallGrid.data.length : Int) :=
  ⟨rfl, by decide⟩

/-- Claim C10 (amended): in the batch quoting merge, an entry whose
`rowId` is at least the header-inclusive row count is skipped leaving
the state unchanged (first conjunct); provided every entry's `rowId` is
non-negative (a negative `rowId` instead aborts the merge, committing
nothing) and the `rowId`s are pairwise distinct, the merge succeeds and
writes exactly the entries with `rowId` below the row count — their
price/delivery cells get the quote's values, `"ai"` provenance on the
three columns, and the quoting citation (there is no lower bound check,
so `rowId = 0` writes the header row this way) — while every row not
targeted by any entry keeps its data, provenance and citation
unchanged. -/
theorem c10_quote_merge_upper_bound_only (domainOf : String → String)
    (cn cu cd : Nat) (quotes : List QuotedRow) (st : GridState)
    (hnn : ∀ q ∈ quotes, 0 ≤ q.rowId)
    (hnd : (quotes.map (fun q => q.rowId)).Nodup) :
    (∀ (st3 : GridState) (q : QuotedRow), (st3.data.length : Int) ≤ q.rowId →
      autoQuoteStep domainOf cn cu cd st3 q = some st3) ∧
    ∃ st2, autoQuoteMerge domainOf cn cu cd quotes st = some st2 ∧
      st2.data.length = st.data.length ∧
      (∀ q ∈ quotes, q.rowId < (st.data.length : Int) →
        st2.data.get? q.rowId.toNat
            = some (applyQuoteRow cn cu cd q (st.data.getD q.rowId.toNat [])) ∧
        st2.metadata q.rowId.toNat cn = some "ai" ∧
        st2.metadata q.rowId.toNat cu = some "ai" ∧
        st2.metadata q.rowId.toNat cd = some "ai" ∧
        st2.sources q.rowId.toNat = some (quoteCitation domainOf q)) ∧
      (∀ r : Nat, (∀ q ∈ quotes, q.rowId ≠ (r : Int)) →
        st2.data.get? r = st.data.get? r ∧
        (∀ c, st2.metadata r c = st.metadata r c) ∧
        st2.sources r = st.sources r) :=
  ⟨fun st3 q h => autoQuoteStep_skip h,
    autoQuoteMerge_ok domainOf cn cu cd quotes st hnn hnd⟩

/-- Witness for C10 (amended): a single quote with `rowId = 0` (the
header row) on the two-row grid. -/
theorem c10_quote_merge_upper_bound_only_witness :
    (∀ (st3 : GridState) (q : QuotedRow), (st3.data.length : Int) ≤ q.rowId →
      autoQuoteStep (fun _ => "d") 1 2 3 st3 q = some st3) ∧
    ∃ st2, autoQuoteMerge (fun _ => "d") 1 2 3 [headerQuote] smallGrid = some st2 ∧
      st2.data.length = smallGrid.data.length ∧
      (∀ q ∈ [headerQuote],
        q.rowId < (smallGrid.data.length : Int) →
        st2.data.get? q.rowId.toNat
            = some (applyQuoteRow 1 2 3 q (smallGrid.data.getD q.rowId.toNat [])) ∧
        st2.metadata q.rowId.toNat 1 = some "ai" ∧
        st2.metadata q.rowId.toNat 2 = some "ai" ∧
        st2.metadata q.rowId.toNat 3 = some "ai" ∧
        st2.sources q.rowId.toNat = some (quoteCitation (fun _ => "d") q)) ∧
      (∀ r : Nat, (∀ q ∈ [headerQuote], q.rowId ≠ (r : Int)) →
        st2.data.get? r = smallGrid.data.get? r ∧
        (∀ c, st2.metadata r c = smallGrid.metadata r c) ∧
        st2.sources r = smallGrid.sources r) :=
  c10_quote_merge_upper_bound_only (fun _ => "d") 1 2 3 [headerQuote] smallGrid
    (by decide) (by decide)

theorem chatMergeStep_frame_bound
    {p : List (List String) × (Nat → Option RowSourceInfo)} {r0 : ChatRow}
    {j : Nat} (hj : j < p.1.length) (hnt0 : r0.index ≠ some (j : Int)) :
    (chatMergeStep p r0).1.getD j [] = p.1.getD j [] ∧
    p.1.length ≤ (chatMergeStep p r0).1.length := by
  rcases hd : r0.data with _ | d
  · constructor <;> simp [chatMergeStep, hd]
  · rcases hi : r0.index with _ | i
    · simp only [chatMergeStep, hd, hi]
      constructor
      · rw [List.getD_eq_getElem?_getD, List.getElem?_append_left hj,
          ← List.getD_eq_getElem?_getD]
      · simp
    · by_cases hin : 0 ≤ i ∧ i < (p.1.length : Int)
      · simp only [chatMergeStep, hd, hi, if_pos hin]
        constructor
        · have hne : i.toNat ≠ j := by
            intro he
            apply hnt0
            rw [hi]
            have : i = (j : Int) := by omega
            rw [this]
          rw [List.getD_eq_getElem?_getD, List.getElem?_set_ne hne,
            ← List.getD_eq_getElem?_getD]
        · rw [List.length_set]
      · simp only [chatMergeStep, hd, hi, if_neg hin]
        constructor
        · rw [List.getD_eq_getElem?_getD, List.getElem?_append_left hj,
            ← List.getD_eq_getElem?_getD]
        · simp

theorem chatMerge_foldl_frame :
    ∀ (rows : List ChatRow)
      (p : List (List String) × (Nat → Option RowSourceInfo)) (j : Nat),
      j < p.1.length → (∀ r ∈ rows, r.index ≠ some (j : Int)) →
      (rows.foldl chatMergeStep p).1.getD j [] = p.1.getD j [] := by
  intro rows
  induction rows with
  | nil =>
    intro p j _ _
    rfl
  | cons r0 rest ih =>
    intro p j hj hnt
    rw [List.foldl_cons]
    have hkey := @chatMergeStep_frame_bound p r0 j hj
      (hnt r0 (List.mem_cons_self _ _))
    rw [ih (chatMergeStep p r0) j (lt_of_lt_of_le hj hkey.2)
      (fun r hr => hnt r (List.mem_cons_of_mem _ hr)), hkey.1]

/-- Counterexample for C5: for the one-row grid `[["h"]]` and the
response rows `[(no index, data ["a"]), (index 1, data ["b"])]`, the
claim's reading (indices compared against the pre-merge row count, 1)
predicts both rows are appended, giving 1 + 2 = 3 rows; the code
instead appends `["a"]` (making the working grid 2 rows long) and then
treats index 1 as in range, overwriting the row it just appended — the
final grid is `[["h"], ["b"]]` with 2 rows. -/
theorem c5_counterexample :
    ¬ ((chatMergeData [["h"]]
          ([⟨none, some ["a"], none⟩, ⟨some 1, some ["b"], none⟩] : List ChatRow)).length
        = ([["h"]] : List (List String)).length
          + staticAppendCount ([["h"]] : List (List String)).length
              ([⟨none, some ["a"], none⟩, ⟨some 1, some ["b"], none⟩] : List ChatRow)) := by
  decide

/-- Claim C5 (amended): in the structured conversational merge, a
response row carrying a data array and a numeric index that is in range
of the *current working grid* (which grows as earlier response rows are
appended) overwrites exactly that working row in place; a response row
whose index is missing, negative, or at least the current working row
count is appended at the end; and every grid row not targeted by any
response row's index retains its pre-merge cell values exactly. -/
theorem c5_indexed_merge_semantics :
    (∀ (p : List (List String) × (Nat → Option RowSourceInfo)) (r : ChatRow)
        (d : List String) (i : Int),
      r.data = some d → r.index = some i → 0 ≤ i → i < (p.1.length : Int) →
      (chatMergeStep p r).1 = p.1.set i.toNat d) ∧
    (∀ (p : List (List String) × (Nat → Option RowSourceInfo)) (r : ChatRow)
        (d : List String) (i : Int),
      r.data = some d → r.index = some i →
      (i < 0 ∨ (p.1.length : Int) ≤ i) →
      (chatMergeStep p r).1 = p.1 ++ [d]) ∧
    (∀ (p : List (List String) × (Nat → Option RowSourceInfo)) (r : ChatRow)
        (d : List String),
      r.data = some d → r.index = none →
      (chatMergeStep p r).1 = p.1 ++ [d]) ∧
    (∀ (data : List (List String)) (rows : List ChatRow) (j : Nat),
      j < data.length → (∀ r ∈ rows, r.index ≠ some (j : Int)) →
      (chatMergeData data rows).getD j [] = data.getD j []) := by
  refine ⟨?_, ?_, ?_, ?_⟩
  · intro p r d i hd hi h0 hlt
    simp only [chatMergeStep, hd, hi, if_pos (And.intro h0 hlt)]
  · intro p r d i hd hi hout
    have hneg : ¬ (0 ≤ i ∧ i < (p.1.length : Int)) := by
      rcases hout with h | h <;> omega
    simp only [chatMergeStep, hd, hi, if_neg hneg]
  · intro p r d hd hi
    simp only [chatMergeStep, hd, hi]
  · intro data rows j hj hnt
    exact chatMerge_foldl_frame rows (data, fun _ => none) j hj hnt

/-- Witness for C5 (amended): an in-range indexed update on a two-row
grid, and the frame property for an untargeted row. -/
theorem c5_indexed_merge_semantics_witness :
    (chatMergeStep (([["h"], ["x"]] : List (List String)),
          (fun _ => none : Nat → Option RowSourceInfo))
        ⟨some 1, some ["y"], none⟩).1
      = ([["h"], ["x"]] : List (List String)).set (1 : Int).toNat ["y"] ∧
    (chatMergeData [["h"], ["x"]] ([⟨some 5, some ["y"], none⟩] : List ChatRow)).getD 1 []
      = ([["h"], ["x"]] : List (List String)).getD 1 [] :=
  ⟨c5_indexed_merge_semantics.1 (([["h"], ["x"]] : List (List String)),
      (fun _ => none : Nat → Option RowSourceInfo))
      ⟨some 1, some ["y"], none⟩ ["y"] 1 rfl rfl (by decide) (by decide),
    c5_indexed_merge_semantics.2.2.2 [["h"], ["x"]]
      ([⟨some 5, some ["y"], none⟩] : List ChatRow) 1 (by decide) (by decide)⟩

theorem commitMutation_history (s : AppState) (g : GridState) :
    (commitMutation s g).history = (commitToHistory s).history := rfl

theorem commit_history_eq (s : AppState) :
    (commitToHistory s).history
      = (s.history ++ [s.current]).drop
          ((s.history ++ [s.current]).length - MAX_HISTORY) := by
  show (if MAX_HISTORY < (s.history ++ [s.current]).length then
      (s.history ++ [s.current]).drop
        ((s.history ++ [s.current]).length - MAX_HISTORY)
    else s.history ++ [s.current]) = _
  by_cases h : MAX_HISTORY < (s.history ++ [s.current]).length
  · rw [if_pos h]
  · rw [if_neg h]
    have h0 : (s.history ++ [s.current]).length - MAX_HISTORY = 0 := by omega
    rw [h0, List.drop_zero]

theorem trim_stable (A : List GridState) (x : GridState) :
    ((A.drop (A.length - MAX_HISTORY)) ++ [x]).drop
        (((A.drop (A.length - MAX_HISTORY)) ++ [x]).length - MAX_HISTORY)
      = (A ++ [x]).drop ((A ++ [x]).length - MAX_HISTORY) := by
  have hM : MAX_HISTORY = 10 := rfl
  by_cases h : A.length ≤ MAX_HISTORY
  · have h0 : A.length - MAX_HISTORY = 0 := by omega
    rw [h0, List.drop_zero]
  · push_neg at h
    have hlen : (A.drop (A.length - MAX_HISTORY)).length = MAX_HISTORY := by
      rw [List.length_drop]
      omega
    have hL : ((A.drop (A.length - MAX_HISTORY)) ++ [x]).length - MAX_HISTORY = 1 := by
      rw [List.length_append, hlen]
      simp
    rw [hL, List.drop_append_of_le_length (by rw [hlen]; omega),
      List.drop_drop]
    have hR : (A ++ [x]).length - MAX_HISTORY = A.length + 1 - MAX_HISTORY := by
      rw [List.length_append]
      rfl
    rw [hR]
    rw [List.drop_append_of_le_length (show A.length + 1 - MAX_HISTORY ≤ A.length by omega)]
    have harith : A.length - MAX_HISTORY + 1 = A.length + 1 - MAX_HISTORY := by omega
    rw [harith]

theorem applyCommits_concat_history (s : AppState) :
    ∀ (gs : List GridState) (g : GridState),
      (applyCommits s (gs ++ [g])).history
        = (s.history ++ s.current :: gs).drop
            ((s.history ++ s.current :: gs).length - MAX_HISTORY) ∧
      (applyCommits s (gs ++ [g])).current = g := by
  intro gs
  induction gs using List.reverseRecOn with
  | nil =>
    intro g
    constructor
    · show (commitMutation s g).history = _
      rw [commitMutation_history, commit_history_eq]
    · rfl
  | append_singleton gs2 g2 ih =>
    intro g
    have happ : applyCommits s ((gs2 ++ [g2]) ++ [g])
        = commitMutation (applyCommits s (gs2 ++ [g2])) g := by
      unfold applyCommits
      rw [List.foldl_append]
      rfl
    obtain ⟨ihh, ihc⟩ := ih g2
    constructor
    · rw [happ, commitMutation_history, commit_history_eq, ihh, ihc]
      have hassoc : s.history ++ s.current :: (gs2 ++ [g2])
          = (s.history ++ s.current :: gs2) ++ [g2] := by
        simp
      rw [hassoc]
      exact trim_stable (s.history ++ s.current :: gs2) g2
    · rw [happ]
      rfl

theorem applyUndos_suffix :
    ∀ (T H : List GridState) (c : GridState) (f : List GridState), T ≠ [] →
      applyUndos ⟨c, H ++ T, f⟩ T.length
        = ⟨T.headD c, H, T.drop 1 ++ c :: f⟩ := by
  intro T
  induction T using List.reverseRecOn with
  | nil =>
    intro H c f h
    cases h rfl
  | append_singleton T2 x ih =>
    intro H c f _
    have hlen : (T2 ++ [x]).length = T2.length + 1 := by simp
    rw [hlen]
    show applyUndos (handleUndo ⟨c, H ++ (T2 ++ [x]), f⟩) T2.length = _
    have hund : handleUndo ⟨c, H ++ (T2 ++ [x]), f⟩
        = ⟨x, H ++ T2, c :: f⟩ := by
      unfold handleUndo
      have hg : (H ++ (T2 ++ [x])).getLast? = some x := by
        rw [← List.append_assoc]
        exact List.getLast?_concat _
      simp only [hg]
      rw [← List.append_assoc, List.dropLast_concat]
    rw [hund]
    cases T2 with
    | nil => simp [applyUndos]
    | cons t0 T3 =>
      rw [ih H x (c :: f) (List.cons_ne_nil _ _)]
      simp

theorem applyUndos_add (a b : Nat) : ∀ s : AppState,
    applyUndos s (a + b) = applyUndos (applyUndos s a) b := by
  induction a with
  | zero =>
    intro s
    rw [Nat.zero_add]
    rfl
  | succ a2 ih =>
    intro s
    have harith : a2 + 1 + b = (a2 + b) + 1 := by omega
    rw [harith]
    show applyUndos (handleUndo s) (a2 + b) = applyUndos (applyUndos s (a2 + 1)) b
    exact ih (handleUndo s)

/-- Claim C4: (i) for any sequence of at most `MAX_HISTORY` committed
mutations (each pushing the pre-mutation snapshot via
`commitToHistory`), performing as many `handleUndo` calls restores the
current triple that held before the first mutation; (ii) on a non-empty
undo stack, `handleUndo` pushes the current state onto the redo stack,
so `handleRedo` after `handleUndo` is the identity on the whole state;
(iii) beyond depth `MAX_HISTORY` the oldest snapshots are evicted:
after `MAX_HISTORY + 1` mutations from a freshly loaded state,
`MAX_HISTORY + 1` undos end at the state after the *first* mutation,
not before it. -/
theorem c4_bounded_undo_redo :
    (∀ (s : AppState) (gs : List GridState), gs.length ≤ MAX_HISTORY →
      (applyUndos (applyCommits s gs) gs.length).current = s.current) ∧
    (∀ s : AppState, s.history ≠ [] → handleRedo (handleUndo s) = s) ∧
    (∀ (s : AppState) (gs : List GridState), s.history = [] →
      gs.length = MAX_HISTORY + 1 →
      (applyUndos (applyCommits s gs) (MAX_HISTORY + 1)).current
        = gs.headD s.current) := by
  have hM : MAX_HISTORY = 10 := rfl
  refine ⟨?_, ?_, ?_⟩
  · intro s gs hlen
    rcases List.eq_nil_or_concat gs with rfl | ⟨gs2, g, rfl⟩
    · rfl
    · rw [List.concat_eq_append] at *
      obtain ⟨hhist, hcur⟩ := applyCommits_concat_history s gs2 g
      have hlen2 : (gs2 ++ [g]).length = gs2.length + 1 := by simp
      have hd2 : (s.history ++ s.current :: gs2).length - MAX_HISTORY
          ≤ s.history.length := by
        rw [hlen2] at hlen
        simp only [List.length_append, List.length_cons]
        omega
      have hsplit : (s.history ++ s.current :: gs2).drop
          ((s.history ++ s.current :: gs2).length - MAX_HISTORY)
        = s.history.drop ((s.history ++ s.current :: gs2).length - MAX_HISTORY)
            ++ (s.current :: gs2) := List.drop_append_of_le_length hd2
      rcases hA : applyCommits s (gs2 ++ [g]) with ⟨cur, hist, fut⟩
      rw [hA] at hhist hcur
      dsimp only at hhist hcur
      rw [hlen2, hcur, hhist, hsplit]
      have hsuf := applyUndos_suffix (s.current :: gs2)
        (s.history.drop ((s.history ++ s.current :: gs2).length - MAX_HISTORY))
        g fut (List.cons_ne_nil _ _)
      have hlT : (s.current :: gs2).length = gs2.length + 1 := by simp
      rw [hlT] at hsuf
      rw [hsuf]
      rfl
  · intro s h
    obtain ⟨cur, hist, fut⟩ := s
    rcases List.eq_nil_or_concat hist with rfl | ⟨H2, x, rfl⟩
    · cases h rfl
    · rw [List.concat_eq_append]
      unfold handleUndo
      simp only [List.getLast?_concat]
      unfold handleRedo
      simp only [List.dropLast_concat]
  · intro s gs hh hlen
    rcases List.eq_nil_or_concat gs with rfl | ⟨gs2, g, rfl⟩
    · rw [hM] at hlen
      cases hlen
    · rw [List.concat_eq_append] at *
      obtain ⟨hhist, hcur⟩ := applyCommits_concat_history s gs2 g
      rw [hh] at hhist
      have hlen2 : gs2.length = MAX_HISTORY := by
        rw [List.length_append] at hlen
        simp only [List.length_cons, List.length_nil] at hlen
        omega
      have hne : gs2 ≠ [] := List.length_pos.mp (by omega)
      have hsimp : (([] : List GridState) ++ s.current :: gs2).drop
            ((([] : List GridState) ++ s.current :: gs2).length - MAX_HISTORY)
          = gs2 := by
        simp only [List.nil_append, List.length_cons]
        rw [hlen2]
        have h1 : MAX_HISTORY + 1 - MAX_HISTORY = 1 := by omega
        rw [h1]
        rfl
      rw [hsimp] at hhist
      rcases hA : applyCommits s (gs2 ++ [g]) with ⟨cur, hist, fut⟩
      rw [hA] at hhist hcur
      dsimp only at hhist hcur
      rw [hcur, hhist, applyUndos_add MAX_HISTORY 1]
      have hsuf := applyUndos_suffix gs2 [] g fut hne
      rw [List.nil_append] at hsuf
      rw [← hlen2, hsuf]
      cases gs2 with
      | nil => cases hne rfl
      | cons a b => simp [applyUndos, handleUndo]

/-- Witness for C4: two mutations then two undos restore the loaded
grid; undo-then-redo is the identity on a one-deep history; eleven
mutations then eleven undos end at the state after the first
mutation. -/
theorem c4_bounded_undo_redo_witness :
    (applyUndos (applyCommits ⟨smallGrid, [], []⟩
        [⟨[["1"]], fun _ _ => none, fun _ => none⟩,
         ⟨[["2"]], fun _ _ => none, fun _ => none⟩]) 2).current = smallGrid ∧
    handleRedo (handleUndo
        ⟨smallGrid, [⟨[["1"]], fun _ _ => none, fun _ => none⟩], []⟩)
      = ⟨smallGrid, [⟨[["1"]], fun _ _ => none, fun _ => none⟩], []⟩ ∧
    (applyUndos (applyCommits ⟨smallGrid, [], []⟩
        (List.replicate (MAX_HISTORY + 1)
          (⟨[["2"]], fun _ _ => none, fun _ => none⟩ : GridState)))
        (MAX_HISTORY + 1)).current
      = (List.replicate (MAX_HISTORY + 1)
          (⟨[["2"]], fun _ _ => none, fun _ => none⟩ : GridState)).headD smallGrid :=
  ⟨c4_bounded_undo_redo.1 ⟨smallGrid, [], []⟩
      [⟨[["1"]], fun _ _ => none, fun _ => none⟩,
       ⟨[["2"]], fun _ _ => none, fun _ => none⟩] (by decide),
    c4_bounded_undo_redo.2.1
      ⟨smallGrid, [⟨[["1"]], fun _ _ => none, fun _ => none⟩], []⟩
      (List.cons_ne_nil _ _),
    c4_bounded_undo_redo.2.2 ⟨smallGrid, [], []⟩
      (List.replicate (MAX_HISTORY + 1)
        (⟨[["2"]], fun _ _ => none, fun _ => none⟩ : GridState)) rfl
      (by rfl)⟩
